import Mathlib

/-!
Verification development for the skeletal-animation model loader/evaluator
(`model.hpp`, `mesh.hpp`, `main.cpp`).  The C++ code is shallowly embedded:
floating-point scalars are modelled exactly as rationals, glm matrices as
4x4 rational matrices, `std::map<std::string, unsigned int>` as an
association list, and the mutable `Model` object as an explicit state record
threaded through the translated member functions.
-/

set_option maxHeartbeats 1000000

/-- 4x4 matrix over exact scalars, modelling `glm::mat4`. -/
abbrev Mat4 := Matrix (Fin 4) (Fin 4) ℚ

/-- `glm::vec3` with exact scalars. -/
structure Vec3 where
  x : ℚ
  y : ℚ
  z : ℚ
deriving DecidableEq, Repr

instance : Inhabited Vec3 := ⟨⟨0, 0, 0⟩⟩

/-- `glm::quat` / `aiQuaternion` with exact scalars. -/
structure Quat where
  w : ℚ
  x : ℚ
  y : ℚ
  z : ℚ
deriving DecidableEq, Repr

instance : Inhabited Quat := ⟨⟨1, 0, 0, 0⟩⟩

/-- A position/scaling key of an animation channel (`aiVectorKey`). -/
structure VecKey where
  time : ℚ
  value : Vec3
deriving DecidableEq, Repr

instance : Inhabited VecKey := ⟨⟨0, default⟩⟩

/-- A rotation key of an animation channel (`aiQuatKey`). -/
structure QuatKey where
  time : ℚ
  value : Quat
deriving DecidableEq, Repr

instance : Inhabited QuatKey := ⟨⟨0, default⟩⟩

/-- One per-node animation channel (`aiNodeAnim`). -/
structure NodeAnim where
  nodeName : String
  positionKeys : List VecKey
  rotationKeys : List QuatKey
  scalingKeys : List VecKey
deriving DecidableEq, Repr

instance : Inhabited NodeAnim := ⟨⟨"", [], [], []⟩⟩

/-- One animation clip (`aiAnimation`): channels plus its tick rate. -/
structure Animation where
  channels : List NodeAnim
  ticksPerSecond : ℚ
deriving DecidableEq, Repr

instance : Inhabited Animation := ⟨⟨[], 0⟩⟩

/-- A scene-graph node (`aiNode`): name, local transform, children. -/
inductive AiNode : Type where
  | node : String → Mat4 → List AiNode → AiNode

def AiNode.name : AiNode → String
  | .node nm _ _ => nm

def AiNode.transformation : AiNode → Mat4
  | .node _ tr _ => tr

def AiNode.children : AiNode → List AiNode
  | .node _ _ cs => cs

/-- `glm::translate(glm::mat4(1.0f), v)`: identity with translation column. -/
def translateM (v : Vec3) : Mat4 :=
  Matrix.of ![![1, 0, 0, v.x], ![0, 1, 0, v.y], ![0, 0, 1, v.z], ![0, 0, 0, 1]]

/-- `glm::scale(glm::mat4(1.0f), v)`: diagonal scaling matrix. -/
def scaleM (v : Vec3) : Mat4 :=
  Matrix.of ![![v.x, 0, 0, 0], ![0, v.y, 0, 0], ![0, 0, v.z, 0], ![0, 0, 0, 1]]

/-- `glm::toMat4(q)`: the quaternion-to-rotation-matrix formula of glm. -/
def quatToMat4 (q : Quat) : Mat4 :=
  Matrix.of
    ![![1 - 2 * (q.y * q.y + q.z * q.z), 2 * (q.x * q.y - q.w * q.z),
        2 * (q.x * q.z + q.w * q.y), 0],
      ![2 * (q.x * q.y + q.w * q.z), 1 - 2 * (q.x * q.x + q.z * q.z),
        2 * (q.y * q.z - q.w * q.x), 0],
      ![2 * (q.x * q.z - q.w * q.y), 2 * (q.y * q.z + q.w * q.x),
        1 - 2 * (q.x * q.x + q.y * q.y), 0],
      ![0, 0, 0, 1]]

/-- `glm::inverse` on a 4x4 matrix, written with the computable adjugate
(`glm` returns junk on singular input; we return the zero matrix there). -/
def matInverse (A : Mat4) : Mat4 :=
  if A.det = 0 then 0 else A.det⁻¹ • A.adjugate

/-- Floor of a rational, computed on the numerator and denominator. -/
def rfloor (q : ℚ) : ℤ := Int.fdiv q.num (q.den : ℤ)

/-- Truncation toward zero, as C's `fmod` uses. -/
def rtrunc (q : ℚ) : ℤ := if q < 0 then -(rfloor (-q)) else rfloor q

/-- C `fmod` on exact scalars: `x - trunc(x / y) * y`. -/
def cfmod (x y : ℚ) : ℚ := x - (rtrunc (x / y) : ℚ) * y

/-- `std::map<std::string, unsigned int>::find`, on an association list. -/
def lookupName : List (String × ℕ) → String → Option ℕ
  | [], _ => none
  | (k, v) :: rest, n => if k = n then some v else lookupName rest n

/-- In-place update of the `i`-th element of a list
(mutation of `vector[i]` / `boneMatrices[i]`); no-op out of range. -/
def modifyAt (l : List α) (i : ℕ) (f : α → α) : List α :=
  match l.get? i with
  | some a => l.set i (f a)
  | none => l

/-- The pair of quaternion operations performed by the external libraries
inside `Model::calcInterpolatedRotation`: `aiQuaternion::Interpolate`
(spherical interpolation, irrational trigonometric arithmetic) and
`aiQuaternion::Normalize` (square-root renormalisation).  Both are library
primitives outside this repository and are kept as parameters of the
evaluator; every theorem below holds for all choices. -/
structure SlerpOps where
  interpolate : Quat → Quat → ℚ → Quat
  normalize : Quat → Quat

/-- The linear scan shared by `Model::findPosition` / `findRotation` /
`findScaling`: the first index `i` with `animationTime < keys[i+1].time`;
the C++ fallback after a failed scan (`assert(0); return 0;`) is `0`. -/
def findKeyIdx (animationTime : ℚ) (times : List ℚ) : ℕ :=
  match (List.range (times.length - 1)).find?
      (fun i => decide (animationTime < times.getD (i + 1) 0)) with
  | some i => i
  | none => 0

/-- `Model::calcInterpolatedPosition`. -/
def calcInterpolatedPosition (animationTime : ℚ) (keys : List VecKey) : Vec3 :=
  if keys.length = 1 then (keys.getD 0 default).value
  else
    let positionIndex := findKeyIdx animationTime (keys.map VecKey.time)
    let k0 := keys.getD positionIndex default
    let k1 := keys.getD (positionIndex + 1) default
    let deltaTime := k1.time - k0.time
    let factor := (animationTime - k0.time) / deltaTime
    ⟨k0.value.x + factor * (k1.value.x - k0.value.x),
     k0.value.y + factor * (k1.value.y - k0.value.y),
     k0.value.z + factor * (k1.value.z - k0.value.z)⟩

/-- `Model::calcInterpolatedScaling` (same shape as the position case). -/
def calcInterpolatedScaling (animationTime : ℚ) (keys : List VecKey) : Vec3 :=
  if keys.length = 1 then (keys.getD 0 default).value
  else
    let scalingIndex := findKeyIdx animationTime (keys.map VecKey.time)
    let k0 := keys.getD scalingIndex default
    let k1 := keys.getD (scalingIndex + 1) default
    let deltaTime := k1.time - k0.time
    let factor := (animationTime - k0.time) / deltaTime
    ⟨k0.value.x + factor * (k1.value.x - k0.value.x),
     k0.value.y + factor * (k1.value.y - k0.value.y),
     k0.value.z + factor * (k1.value.z - k0.value.z)⟩

/-- `Model::calcInterpolatedRotation`. -/
def calcInterpolatedRotation (ops : SlerpOps) (animationTime : ℚ)
    (keys : List QuatKey) : Quat :=
  if keys.length = 1 then (keys.getD 0 default).value
  else
    let rotationIndex := findKeyIdx animationTime (keys.map QuatKey.time)
    let k0 := keys.getD rotationIndex default
    let k1 := keys.getD (rotationIndex + 1) default
    let deltaTime := k1.time - k0.time
    let factor := (animationTime - k0.time) / deltaTime
    ops.normalize (ops.interpolate k0.value k1.value factor)

/-- `Model::findNodeAnim`: first channel whose node name matches. -/
def findNodeAnim (animation : Animation) (nodeName : String) : Option NodeAnim :=
  animation.channels.find? (fun ch => decide (ch.nodeName = nodeName))

/-- The local transform computed per node inside `Model::readNodeHeirarchy`
(lines 376-402): the channel's `translationM * rotationM * scalingM` when a
channel exists, otherwise the node's static transform. -/
def localTransform (ops : SlerpOps) (anim : Animation) (animationTime : ℚ)
    (node : AiNode) : Mat4 :=
  match findNodeAnim anim node.name with
  | some nodeAnim =>
      translateM (calcInterpolatedPosition animationTime nodeAnim.positionKeys) *
        quatToMat4 (calcInterpolatedRotation ops animationTime nodeAnim.rotationKeys) *
        scaleM (calcInterpolatedScaling animationTime nodeAnim.scalingKeys)
  | none => node.transformation

/-- `Model::BoneMatrix`; its constructor zeroes both matrices. -/
structure BoneMatrix where
  BoneOffset : Mat4
  FinalTransformation : Mat4

instance : Inhabited BoneMatrix := ⟨⟨0, 0⟩⟩

/-- Lines 407-411 of `Model::readNodeHeirarchy`: when the node name is a
registered bone, overwrite that bone's `FinalTransformation` with
`globalInverseTransform * globalTransformation * BoneOffset`. -/
def boneWrite (mapping : List (String × ℕ)) (gInv globalTransformation : Mat4)
    (nodeName : String) (bm : List BoneMatrix) : List BoneMatrix :=
  match lookupName mapping nodeName with
  | some boneIndex =>
      modifyAt bm boneIndex (fun m =>
        { m with FinalTransformation := gInv * globalTransformation * m.BoneOffset })
  | none => bm

mutual

/-- `Model::readNodeHeirarchy`: computes the node's local transform, the
global transform `parentTransform * nodeTransformation`, writes
`globalInverseTransform * globalTransformation * BoneOffset` into the
matching bone's `FinalTransformation`, then recurses into the children. -/
def readNodeHeirarchy (ops : SlerpOps) (anim : Animation)
    (mapping : List (String × ℕ)) (gInv : Mat4) (animationTime : ℚ) :
    AiNode → Mat4 → List BoneMatrix → List BoneMatrix
  | AiNode.node nm tr cs, parentTransform, bm =>
    readNodeList ops anim mapping gInv animationTime cs
      (parentTransform * localTransform ops anim animationTime (AiNode.node nm tr cs))
      (boneWrite mapping gInv
        (parentTransform * localTransform ops anim animationTime (AiNode.node nm tr cs))
        nm bm)

/-- The `for` loop over `node->mChildren` at the end of
`Model::readNodeHeirarchy`. -/
def readNodeList (ops : SlerpOps) (anim : Animation)
    (mapping : List (String × ℕ)) (gInv : Mat4) (animationTime : ℚ) :
    List AiNode → Mat4 → List BoneMatrix → List BoneMatrix
  | [], _, bm => bm
  | n :: rest, parentTransform, bm =>
      readNodeList ops anim mapping gInv animationTime rest parentTransform
        (readNodeHeirarchy ops anim mapping gInv animationTime n parentTransform bm)

end

/-- A loaded texture record (`struct Texture` in `mesh.hpp`); the C++ field
`Type` is spelled `TypeName` here because `Type` is reserved in Lean. -/
structure Texture where
  ID : ℕ
  TypeName : String
  Path : String
deriving DecidableEq, Repr

/-- A vertex produced by `Model::processMesh` (`struct Vertex` in
`mesh.hpp`).  The parallel `glm::ivec4 BoneIDs` / `glm::vec4 BoneWeights`
arrays are modelled zipped: slot `g` is the pair
`(BoneIDs[g], BoneWeights[g])`. -/
structure Vertex where
  Position : Vec3
  Normal : Vec3
  TexCoords : ℚ × ℚ
  slots : List (ℤ × ℚ)
deriving DecidableEq, Repr

instance : Inhabited Vertex := ⟨⟨default, default, (0, 0), []⟩⟩

/-- The renderer-ready mesh (`class Mesh`); GPU buffer handles omitted. -/
structure Mesh where
  vertices : List Vertex
  indices : List ℕ
  textures : List Texture
deriving DecidableEq, Repr

/-- Per-type texture path lists of an `aiMaterial`
(`GetTextureCount`/`GetTexture` for DIFFUSE/SPECULAR/HEIGHT/EMISSIVE). -/
structure MaterialIn where
  diffuse : List String
  specular : List String
  height : List String
  emissive : List String

instance : Inhabited MaterialIn := ⟨⟨[], [], [], []⟩⟩

/-- One skinning bone of an `aiMesh` (`aiBone`): name, offset matrix and
its `(mVertexId, mWeight)` records. -/
structure BoneIn where
  name : String
  offsetMatrix : Mat4
  weights : List (ℕ × ℚ)

/-- Raw per-vertex data of an `aiMesh`. -/
structure VertexIn where
  position : Vec3
  normal : Vec3
  texCoords : ℚ × ℚ

/-- An imported mesh (`aiMesh`). -/
structure MeshIn where
  vertices : List VertexIn
  hasNormals : Bool
  hasTexCoords : Bool
  bones : List BoneIn
  faces : List (List ℕ)
  materialIndex : ℕ

/-- Contents of the fields of a default-constructed `Vertex` that
`Model::processMesh` never writes: the source zeroes `BoneWeights`
(line 179) but never initialises `BoneIDs`, and leaves `Normal` untouched
when the mesh has no normals; glm's default constructors leave those
values indeterminate, so they are parameters of the embedding. -/
structure CtorDefaults where
  boneIDs : List ℤ
  normal : Vec3

/-- The vertex-construction loop of `Model::processMesh` (lines 146-182):
positions copied, normals only when present, UV fallback `(0,0)`, all four
bone weights zeroed, bone ids left at their default-constructed value. -/
def buildVertex (env : CtorDefaults) (mesh : MeshIn) (vi : VertexIn) : Vertex :=
  { Position := vi.position
    Normal := if mesh.hasNormals then vi.normal else env.normal
    TexCoords := if mesh.hasTexCoords then vi.texCoords else (0, 0)
    slots := env.boneIDs.map (fun z => (z, (0 : ℚ))) }

/-- The innermost loop of `Model::processMesh` (lines 209-217): store
`(boneIndex, weight)` in the first slot whose current weight is `0`;
if every slot has a nonzero weight the record is dropped. -/
def addBoneData : List (ℤ × ℚ) → ℤ → ℚ → List (ℤ × ℚ)
  | [], _, _ => []
  | (id0, w0) :: rest, b, w =>
    if w0 = 0 then (b, w) :: rest else (id0, w0) :: addBoneData rest b w

/-- The scene and model state owned by `class Model`.  `scene` is the
imported scene pointer; the remaining fields are the private data members
in declaration order. -/
structure Scene where
  rootNode : AiNode
  animations : List Animation
  materials : List MaterialIn

structure ModelState where
  scene : Scene
  directory : String
  meshes : List Mesh
  loadedTextures : List Texture
  globalInverseTransform : Mat4
  ticksPerSecond : ℚ
  animDuration : ℚ
  currentAnimation : ℕ
  bonesCount : ℕ
  boneMapping : List (String × ℕ)
  boneMatrices : List BoneMatrix

/-- The bone-registration step of `Model::processMesh` (lines 187-202):
an existing name returns its stored index, a new name is assigned
`bonesCount`, a fresh zeroed `BoneMatrix` is appended and its offset set. -/
def bindBone (s : ModelState) (boneName : String) (offset : Mat4) :
    ModelState × ℕ :=
  match lookupName s.boneMapping boneName with
  | none =>
      let boneIndex := s.bonesCount
      let s' := { s with
        bonesCount := s.bonesCount + 1,
        boneMatrices := modifyAt (s.boneMatrices ++ [default]) boneIndex
          (fun m => { m with BoneOffset := offset }),
        boneMapping := s.boneMapping ++ [(boneName, boneIndex)] }
      (s', boneIndex)
  | some i => (s, i)

/-- Folding `bindBone` over a sequence of (name, offset) registrations. -/
def bindAll (s : ModelState) (pairs : List (String × Mat4)) : ModelState :=
  pairs.foldl (fun acc nb => (bindBone acc nb.1 nb.2).1) s

/-- The weight loop of `Model::processMesh` (lines 204-218) for one bone:
each `(mVertexId, mWeight)` record updates the slots of that vertex. -/
def applyWeights (boneIndex : ℕ) (ws : List (ℕ × ℚ)) (vs : List Vertex) :
    List Vertex :=
  ws.foldl (fun acc vw =>
    modifyAt acc vw.1 (fun v =>
      { v with slots := addBoneData v.slots (boneIndex : ℤ) vw.2 })) vs

/-- The bone loop of `Model::processMesh` (lines 185-219). -/
def processBones (s : ModelState) (bones : List BoneIn) (vs : List Vertex) :
    ModelState × List Vertex :=
  bones.foldl (fun acc bone =>
    let bound := bindBone acc.1 bone.name bone.offsetMatrix
    (bound.1, applyWeights bound.2 bone.weights acc.2)) (s, vs)

/-- The OpenGL/stdout environment touched by `TextureFromFile`:
`nextTexId` is the next texture name `glGenTextures` hands out (nonzero in
a valid GL context), `log` the lines written to `std::cout`. -/
structure GLState where
  nextTexId : ℕ
  log : List String

/-- The message printed by `TextureFromFile` when `stbi_load` fails. -/
def textureFailMsg (path : String) : String :=
  "Texture failed to load at path: " ++ path

/-- `TextureFromFile` (lines 466-506): builds `directory + '/' + filename`,
generates a texture name, uploads the image when `stbi_load` succeeds,
otherwise only logs the failure; the generated name is returned on BOTH
paths.  `img` tells whether the image file at a path is loadable. -/
def TextureFromFile (img : String → Bool) (filename directory : String)
    (gl : GLState) : GLState × ℕ :=
  let path := directory ++ "/" ++ filename
  let textureID := gl.nextTexId
  let gl1 : GLState := { gl with nextTexId := gl.nextTexId + 1 }
  if img path then (gl1, textureID)
  else ({ gl1 with log := gl1.log ++ [textureFailMsg path] }, textureID)

/-- `Model::loadMaterialTextures` (lines 434-463): for each texture path of
the requested type, reuse the cached record when the path was seen before,
otherwise load it and append it to both the result and the cache.  Returns
(textures of this call, updated `loadedTextures` cache, GL state). -/
def loadTexStep (img : String → Bool) (directory typeName : String)
    (acc : List Texture × List Texture × GLState) (p : String) :
    List Texture × List Texture × GLState :=
  match acc.2.1.find? (fun t => decide (t.Path = p)) with
  | some t => (acc.1 ++ [t], acc.2.1, acc.2.2)
  | none =>
      let r := TextureFromFile img p directory acc.2.2
      let texture : Texture := { ID := r.2, TypeName := typeName, Path := p }
      (acc.1 ++ [texture], acc.2.1 ++ [texture], r.1)

def loadMaterialTextures (img : String → Bool) (directory : String)
    (loaded : List Texture) (gl : GLState) (paths : List String)
    (typeName : String) : List Texture × List Texture × GLState :=
  paths.foldl (loadTexStep img directory typeName) ([], loaded, gl)

def diffuseName : String := "texture_diffuse"
def specularName : String := "texture_specular"
def normalName : String := "texture_normal"
def emissionName : String := "texture_emission"

/-- `Model::processMesh` (lines 138-255): build the vertex records, run the
bone/weight binding, flatten the faces and resolve the four material
texture types. -/
def processMesh (env : CtorDefaults) (img : String → Bool) (s : ModelState)
    (gl : GLState) (mesh : MeshIn) : ModelState × GLState × Mesh :=
  let vertices0 := mesh.vertices.map (buildVertex env mesh)
  let processed := processBones s mesh.bones vertices0
  let s1 := processed.1
  let indices := mesh.faces.flatten
  let material := s.scene.materials.getD mesh.materialIndex default
  let d := loadMaterialTextures img s.directory s1.loadedTextures gl
    material.diffuse diffuseName
  let sp := loadMaterialTextures img s.directory d.2.1 d.2.2
    material.specular specularName
  let n := loadMaterialTextures img s.directory sp.2.1 sp.2.2
    material.height normalName
  let e := loadMaterialTextures img s.directory n.2.1 n.2.2
    material.emissive emissionName
  ({ s1 with loadedTextures := e.2.1 }, e.2.2,
   { vertices := processed.2, indices := indices,
     textures := d.1 ++ sp.1 ++ n.1 ++ e.1 })

/-- The clip selected by `currentAnimation`
(`scene->mAnimations[currentAnimation]`). -/
def currentClip (s : ModelState) : Animation :=
  s.scene.animations.getD s.currentAnimation default

/-- Lines 262-263 of `Model::boneTransform`: the duration is the timestamp
of the LAST position key of channel 0 of the active clip. -/
def effectiveDuration (anim : Animation) : ℚ :=
  let ch0 := anim.channels.getD 0 default
  (ch0.positionKeys.getD (ch0.positionKeys.length - 1) default).time

/-- Line 265 of `Model::boneTransform`: the clip's own rate, or 25 when it
is zero. -/
def effectiveTPS (anim : Animation) : ℚ :=
  if anim.ticksPerSecond ≠ 0 then anim.ticksPerSecond else 25

/-- `Model::boneTransform` after the animation time has been computed:
stores the duration into the member `animDuration`, runs
`readNodeHeirarchy` from the root with the identity parent transform, and
snapshots `bonesCount` final transformations. -/
def boneTransformAux (ops : SlerpOps) (s : ModelState) (animationTime : ℚ) :
    ModelState × List Mat4 :=
  let anim := currentClip s
  let bm := readNodeHeirarchy ops anim s.boneMapping s.globalInverseTransform
    animationTime s.scene.rootNode 1 s.boneMatrices
  let s1 := { s with animDuration := effectiveDuration anim, boneMatrices := bm }
  (s1, (List.range s.bonesCount).map (fun i => (bm.getD i default).FinalTransformation))

/-- `Model::boneTransform` (lines 257-273): wrap
`timeInSeconds * ticksPerSecond` by `fmod` against the effective duration,
then evaluate the hierarchy. -/
def boneTransform (ops : SlerpOps) (s : ModelState) (timeInSeconds : ℚ) :
    ModelState × List Mat4 :=
  let anim := currentClip s
  boneTransformAux ops s (cfmod (timeInSeconds * effectiveTPS anim) (effectiveDuration anim))

/-- `Model::SetAnimation` (lines 70-74): `animation` is unsigned, so the
`animation >= 0` conjunct of the guard is always true. -/
def SetAnimation (s : ModelState) (animation : ℕ) : ModelState :=
  if 0 ≤ animation ∧ animation < s.scene.animations.length then
    { s with currentAnimation := animation }
  else s

/-- `Model::InitFromScene` lines 50-57: cache the inverse of the root
node's transform and the default tick rate.  The trailing
`processNode(scene->mRootNode)` call that builds the meshes is modelled
separately by `processMesh` above. -/
def InitFromScene (s : ModelState) (scene : Scene) : ModelState :=
  { s with
    scene := scene,
    globalInverseTransform := matInverse scene.rootNode.transformation,
    ticksPerSecond :=
      if scene.animations ≠ [] ∧
          (scene.animations.getD s.currentAnimation default).ticksPerSecond ≠ 0 then
        (scene.animations.getD s.currentAnimation default).ticksPerSecond
      else 25 }

/-- `true` when the nonzero weights of a slot list form a contiguous
leading block: after the first zero weight, every weight is zero. -/
def zeroTail : List (ℤ × ℚ) → Bool
  | [] => true
  | (_, w) :: rest =>
    if w = 0 then rest.all (fun p => decide (p.2 = 0)) else zeroTail rest

mutual

/-- All node names of a tree, root first (traversal order). -/
def treeNames : AiNode → List String
  | .node nm _ cs => nm :: forestNames cs

/-- All node names of a list of trees. -/
def forestNames : List AiNode → List String
  | [] => []
  | n :: rest => treeNames n ++ forestNames rest

end

/-- The node reached from `root` by following the given child indices. -/
def nodeAt : AiNode → List ℕ → Option AiNode
  | n, [] => some n
  | n, i :: p =>
    match n.children.get? i with
    | some c => nodeAt c p
    | none => none

/-- The accumulated global transform (product of local transforms) of the
node reached by the given child-index path, starting from `parent`. -/
def globalAt (ops : SlerpOps) (anim : Animation) (animationTime : ℚ) :
    AiNode → Mat4 → List ℕ → Option Mat4
  | n, parent, [] => some (parent * localTransform ops anim animationTime n)
  | n, parent, i :: p =>
    match n.children.get? i with
    | some c =>
        globalAt ops anim animationTime c
          (parent * localTransform ops anim animationTime n) p
    | none => none

/-- A trivial instantiation of the external quaternion primitives, used
for concrete evaluations. -/
def trivOps : SlerpOps := ⟨fun q _ _ => q, fun q => q⟩

-- ===== Concrete instances used by closed evaluations =====

def wRootName : String := "root"
def wBoneName : String := "bone"

/-- A childless root node with identity transform. -/
def wNode : AiNode := AiNode.node wRootName 1 []

def wScene : Scene :=
  { rootNode := wNode, animations := [default], materials := [] }

/-- A freshly constructed model (the `Model()` constructor zeroes
`animDuration`, `currentAnimation` and `bonesCount`) holding `wScene`. -/
def wModel : ModelState :=
  { scene := wScene, directory := "", meshes := [], loadedTextures := [],
    globalInverseTransform := 1, ticksPerSecond := 0, animDuration := 0,
    currentAnimation := 0, bonesCount := 0, boneMapping := [],
    boneMatrices := [] }

def wImgTrue : String → Bool := fun _ => true
def wImgFalse : String → Bool := fun _ => false
def wGL : GLState := { nextTexId := 1, log := [] }
def wEnv : CtorDefaults := { boneIDs := [0, 0, 0, 0], normal := default }

/-- Default-constructed `glm::ivec4` contents observed as `7` in each lane. -/
def wEnv7 : CtorDefaults := { boneIDs := [7, 7, 7, 7], normal := default }

def w4slots : List (ℤ × ℚ) := [(2, 3), (0, 0), (0, 0), (0, 0)]

def wMesh4 : MeshIn :=
  { vertices := [⟨⟨0, 0, 0⟩, ⟨0, 0, 0⟩, (0, 0)⟩],
    hasNormals := true, hasTexCoords := true,
    bones := [{ name := wBoneName, offsetMatrix := 1, weights := [(0, 3)] }],
    faces := [], materialIndex := 0 }

/-- A mesh with one vertex and no skinning records at all. -/
def wMeshNoBones : MeshIn :=
  { vertices := [⟨⟨0, 0, 0⟩, ⟨0, 0, 0⟩, (0, 0)⟩],
    hasNormals := true, hasTexCoords := true,
    bones := [], faces := [], materialIndex := 0 }

def wBindPairs : List (String × Mat4) := [(wBoneName, 1), (wRootName, 1), (wBoneName, 1)]

def wMap : List (String × ℕ) := [(wRootName, 0)]
def wBm : List BoneMatrix := [⟨1, 0⟩]

def wPosKeys : List VecKey := [⟨0, ⟨0, 0, 0⟩⟩, ⟨2, ⟨1, 0, 0⟩⟩]

def wChannel : NodeAnim :=
  { nodeName := wRootName, positionKeys := wPosKeys,
    rotationKeys := [⟨0, default⟩], scalingKeys := [⟨0, ⟨1, 1, 1⟩⟩] }

/-- A clip whose rate field is 0 and whose channel-0 duration is 2 ticks. -/
def wClip : Animation := { channels := [wChannel], ticksPerSecond := 0 }

def wSceneAnim : Scene :=
  { rootNode := wNode, animations := [wClip], materials := [] }

def wModelAnim : ModelState :=
  { wModel with scene := wSceneAnim }

def wChanLong : NodeAnim :=
  { nodeName := wBoneName, positionKeys := [⟨0, default⟩, ⟨5, default⟩],
    rotationKeys := [⟨0, default⟩], scalingKeys := [⟨0, default⟩] }

/-- A 2-channel clip: channel 0 ends at tick 2, channel 1 at tick 5. -/
def wClip2 : Animation := { channels := [wChannel, wChanLong], ticksPerSecond := 1 }

def wModel2 : ModelState :=
  { wModel with scene :=
      { rootNode := wNode, animations := [wClip2], materials := [] } }

def wMissing : String := "missing.png"
def wDir : String := "assets"

/-- One used slot, then three weight-0 slots with default-constructed
index lanes 7. -/
def w0slots : List (ℤ × ℚ) := [(1, 5), (7, 0), (7, 0), (7, 0)]

-- ===== Theorems =====

theorem list_all_zero_map_pair (l : List ℤ) :
    (l.map (fun z => ((z, (0 : ℚ)) : ℤ × ℚ))).all (fun p => decide (p.2 = 0)) = true := by
  induction l with
  | nil => rfl
  | cons hd tl ih => simp [ih]

theorem zeroTail_of_all_zero (l : List (ℤ × ℚ))
    (h : l.all (fun p => decide (p.2 = 0)) = true) : zeroTail l = true := by
  induction l with
  | nil => rfl
  | cons hd tl ih =>
    obtain ⟨i0, w0⟩ := hd
    simp only [List.all_cons, Bool.and_eq_true, decide_eq_true_eq] at h
    simp [zeroTail, h.1, h.2]

theorem addBoneData_length (slots : List (ℤ × ℚ)) (b : ℤ) (w : ℚ) :
    (addBoneData slots b w).length = slots.length := by
  induction slots with
  | nil => rfl
  | cons hd tl ih =>
    obtain ⟨i0, w0⟩ := hd
    by_cases h : w0 = 0 <;> simp [addBoneData, h, ih]

theorem addBoneData_no_empty_slot (slots : List (ℤ × ℚ)) (b : ℤ) (w : ℚ)
    (h : slots.any (fun p => decide (p.2 = 0)) = false) :
    addBoneData slots b w = slots := by
  induction slots with
  | nil => rfl
  | cons hd tl ih =>
    obtain ⟨i0, w0⟩ := hd
    simp only [List.any_cons, Bool.or_eq_false_iff, decide_eq_false_iff_not] at h
    simp [addBoneData, h.1, ih h.2]

theorem addBoneData_first_zero (slots : List (ℤ × ℚ)) (b : ℤ) (w : ℚ)
    (h : slots.any (fun p => decide (p.2 = 0)) = true) :
    addBoneData slots b w =
      slots.set (slots.findIdx (fun p => decide (p.2 = 0))) (b, w) := by
  induction slots with
  | nil => simp at h
  | cons hd tl ih =>
    obtain ⟨i0, w0⟩ := hd
    by_cases h0 : w0 = 0
    · simp [addBoneData, h0, List.findIdx_cons]
    · simp only [List.any_cons, decide_eq_true_eq, h0, Bool.false_or] at h
      simp [addBoneData, h0, List.findIdx_cons, ih h]

theorem zeroTail_addBoneData (slots : List (ℤ × ℚ)) (b : ℤ) (w : ℚ)
    (h : zeroTail slots = true) : zeroTail (addBoneData slots b w) = true := by
  induction slots with
  | nil => exact h
  | cons hd tl ih =>
    obtain ⟨i0, w0⟩ := hd
    by_cases h0 : w0 = 0
    · simp only [zeroTail, h0, if_true] at h
      by_cases hw : w = 0
      · simp [addBoneData, h0, zeroTail, hw, h]
      · simp [addBoneData, h0, zeroTail, hw, zeroTail_of_all_zero tl h]
    · simp only [zeroTail, h0, if_false] at h
      simp [addBoneData, h0, zeroTail, ih h]

theorem addBoneData_zero_weights (slots : List (ℤ × ℚ)) (b : ℤ) :
    (addBoneData slots b 0).map Prod.snd = slots.map Prod.snd := by
  induction slots with
  | nil => rfl
  | cons hd tl ih =>
    obtain ⟨i0, w0⟩ := hd
    by_cases h : w0 = 0
    · simp [addBoneData, h]
    · simp [addBoneData, h, ih]

theorem addBoneData_zero_cancel (slots : List (ℤ × ℚ)) (b b2 : ℤ) (w2 : ℚ) :
    addBoneData (addBoneData slots b 0) b2 w2 = addBoneData slots b2 w2 := by
  induction slots with
  | nil => rfl
  | cons hd tl ih =>
    obtain ⟨i0, w0⟩ := hd
    by_cases h : w0 = 0
    · simp [addBoneData, h]
    · simp [addBoneData, h, ih]

theorem mem_modifyAt {α : Type} (P : α → Prop) (l : List α) (i : ℕ) (f : α → α)
    (hl : ∀ a ∈ l, P a) (hf : ∀ a, P a → P (f a)) :
    ∀ a ∈ modifyAt l i f, P a := by
  unfold modifyAt
  cases hget : l.get? i with
  | none => exact hl
  | some a0 =>
    intro a ha
    rcases List.mem_or_eq_of_mem_set ha with h | h
    · exact hl a h
    · exact h ▸ hf a0 (hl a0 (List.get?_mem hget))

theorem modifyAt_length {α : Type} (l : List α) (i : ℕ) (f : α → α) :
    (modifyAt l i f).length = l.length := by
  unfold modifyAt
  cases l.get? i with
  | none => rfl
  | some a0 => exact List.length_set l i (f a0)

/-- Any property of the slot list that `addBoneData` preserves is an
invariant of the per-bone weight loop. -/
theorem applyWeights_pres (Q : List (ℤ × ℚ) → Prop)
    (hQ : ∀ sl b w, Q sl → Q (addBoneData sl b w)) (bi : ℕ) (ws : List (ℕ × ℚ))
    (vs : List Vertex) (h : ∀ v ∈ vs, Q v.slots) :
    ∀ v ∈ applyWeights bi ws vs, Q v.slots := by
  induction ws generalizing vs with
  | nil => exact h
  | cons hd tl ih =>
    have hstep : ∀ v ∈ modifyAt vs hd.1
        (fun v => { v with slots := addBoneData v.slots (bi : ℤ) hd.2 }), Q v.slots := by
      refine mem_modifyAt (fun v => Q v.slots) vs hd.1 _ h ?_
      intro a ha
      exact hQ a.slots (bi : ℤ) hd.2 ha
    exact ih _ hstep

/-- The same, lifted over the whole bone loop of `processMesh`. -/
theorem processBones_pres (Q : List (ℤ × ℚ) → Prop)
    (hQ : ∀ sl b w, Q sl → Q (addBoneData sl b w)) (s : ModelState)
    (bones : List BoneIn) (vs : List Vertex) (h : ∀ v ∈ vs, Q v.slots) :
    ∀ v ∈ (processBones s bones vs).2, Q v.slots := by
  induction bones generalizing s vs with
  | nil => exact h
  | cons hd tl ih =>
    have hstep := applyWeights_pres Q hQ (bindBone s hd.name hd.offsetMatrix).2
      hd.weights vs h
    exact ih _ _ hstep

/-- Vertices of a `processMesh` result, as they are built: the map of
`buildVertex` transformed by the bone loop. -/
theorem processMesh_vertices (env : CtorDefaults) (img : String → Bool)
    (s : ModelState) (gl : GLState) (mesh : MeshIn) :
    (processMesh env img s gl mesh).2.2.vertices =
      (processBones s mesh.bones (mesh.vertices.map (buildVertex env mesh))).2 := rfl

theorem processMesh_slots_pres (Q : List (ℤ × ℚ) → Prop)
    (hQ : ∀ sl b w, Q sl → Q (addBoneData sl b w))
    (hinit : Q (env.boneIDs.map (fun z => (z, (0 : ℚ)))))
    (img : String → Bool) (s : ModelState) (gl : GLState) (mesh : MeshIn) :
    ∀ v ∈ (processMesh env img s gl mesh).2.2.vertices, Q v.slots := by
  rw [processMesh_vertices]
  refine processBones_pres Q hQ s mesh.bones _ ?_
  intro v hv
  rcases List.mem_map.mp hv with ⟨vi, _, rfl⟩
  exact hinit

theorem applyWeights_cons (bi : ℕ) (hd : ℕ × ℚ) (tl : List (ℕ × ℚ))
    (vs : List Vertex) :
    applyWeights bi (hd :: tl) vs =
      applyWeights bi tl (modifyAt vs hd.1
        (fun v => { v with slots := addBoneData v.slots (bi : ℤ) hd.2 })) := rfl

theorem modifyAt_get?_ne {α : Type} (l : List α) (i j : ℕ) (f : α → α)
    (h : i ≠ j) : (modifyAt l i f).get? j = l.get? j := by
  unfold modifyAt
  cases hget : l.get? i with
  | none => rfl
  | some a0 =>
    simp only [List.get?_eq_getElem?]
    exact List.getElem?_set_ne h

theorem applyWeights_get?_untouched (bi : ℕ) (ws : List (ℕ × ℚ))
    (vs : List Vertex) (j : ℕ) (h : ∀ w ∈ ws, w.1 ≠ j) :
    (applyWeights bi ws vs).get? j = vs.get? j := by
  induction ws generalizing vs with
  | nil => rfl
  | cons hd tl ih =>
    rw [applyWeights_cons, ih _ (fun w hw => h w (List.mem_cons_of_mem hd hw)),
      modifyAt_get?_ne _ _ _ _ (h hd (List.mem_cons_self hd tl))]

theorem processBones_cons (s : ModelState) (hd : BoneIn) (tl : List BoneIn)
    (vs : List Vertex) :
    processBones s (hd :: tl) vs =
      processBones (bindBone s hd.name hd.offsetMatrix).1 tl
        (applyWeights (bindBone s hd.name hd.offsetMatrix).2 hd.weights vs) := rfl

theorem processBones_get?_untouched (s : ModelState) (bones : List BoneIn)
    (vs : List Vertex) (j : ℕ)
    (h : ∀ b ∈ bones, ∀ w ∈ b.weights, w.1 ≠ j) :
    (processBones s bones vs).2.get? j = vs.get? j := by
  induction bones generalizing s vs with
  | nil => rfl
  | cons hd tl ih =>
    rw [processBones_cons, ih _ _ (fun b hb => h b (List.mem_cons_of_mem hd hb)),
      applyWeights_get?_untouched _ _ _ _ (h hd (List.mem_cons_self hd tl))]

/-- C8: `Model::SetAnimation` ignores any index that is not strictly below
the clip count (no state change, no error), and selects the clip for any
index strictly below the clip count. -/
theorem setAnimation_range_guard (s : ModelState) (animation : ℕ) :
    (s.scene.animations.length ≤ animation → SetAnimation s animation = s) ∧
    (animation < s.scene.animations.length →
      SetAnimation s animation = { s with currentAnimation := animation }) := by
  constructor
  · intro h
    unfold SetAnimation
    rw [if_neg]
    rintro ⟨-, hc⟩
    exact absurd hc (not_lt.mpr h)
  · intro h
    unfold SetAnimation
    rw [if_pos ⟨Nat.zero_le _, h⟩]

/-- Witness for C8 on a one-clip model: index 5 is ignored, index 0 selected. -/
theorem setAnimation_range_guard_witness :
    wModel.scene.animations.length ≤ 5 ∧ SetAnimation wModel 5 = wModel ∧
    0 < wModel.scene.animations.length ∧
    SetAnimation wModel 0 = { wModel with currentAnimation := 0 } :=
  ⟨by decide, (setAnimation_range_guard wModel 5).1 (by decide), by decide,
   (setAnimation_range_guard wModel 0).2 (by decide)⟩

/-- C4: a skinning record lands in the first influence slot whose weight is
zero, is dropped when no such slot exists, never changes the slot count;
hence after `processMesh` every vertex keeps exactly 4 slots and at most 4
nonzero (index, weight) pairs, in arrival order. -/
theorem bone_influences_capped :
    (∀ slots : List (ℤ × ℚ), ∀ b : ℤ, ∀ w : ℚ,
      (slots.any (fun p => decide (p.2 = 0)) = true →
        addBoneData slots b w =
          slots.set (slots.findIdx (fun p => decide (p.2 = 0))) (b, w)) ∧
      (slots.any (fun p => decide (p.2 = 0)) = false →
        addBoneData slots b w = slots) ∧
      (addBoneData slots b w).length = slots.length) ∧
    (∀ env : CtorDefaults, ∀ img : String → Bool, ∀ s : ModelState,
      ∀ gl : GLState, ∀ mesh : MeshIn, env.boneIDs.length = 4 →
      ∀ v ∈ (processMesh env img s gl mesh).2.2.vertices,
        v.slots.length = 4 ∧
          (v.slots.filter (fun p => decide (p.2 ≠ 0))).length ≤ 4) := by
  constructor
  · intro slots b w
    exact ⟨addBoneData_first_zero slots b w, addBoneData_no_empty_slot slots b w,
      addBoneData_length slots b w⟩
  · intro env img s gl mesh henv v hv
    have hlen : v.slots.length = 4 := by
      refine processMesh_slots_pres (fun sl => sl.length = 4) ?_ ?_ img s gl mesh v hv
      · intro sl b w hsl
        rw [addBoneData_length, hsl]
      · show (List.map (fun z => ((z, (0 : ℚ)) : ℤ × ℚ)) env.boneIDs).length = 4
        rw [List.length_map, henv]
    refine ⟨hlen, ?_⟩
    calc (v.slots.filter (fun p => decide (p.2 ≠ 0))).length
        ≤ v.slots.length := List.length_filter_le _ _
      _ = 4 := hlen

/-- Witness for C4: a record fills the first zero-weight slot of a concrete
vertex, and the concrete `processMesh` run keeps 4 slots. -/
theorem bone_influences_capped_witness :
    w4slots.any (fun p => decide (p.2 = 0)) = true ∧
    addBoneData w4slots 5 2 =
      w4slots.set (w4slots.findIdx (fun p => decide (p.2 = 0))) (5, 2) ∧
    wEnv.boneIDs.length = 4 ∧
    ((processMesh wEnv wImgTrue wModel wGL wMesh4).2.2.vertices.getD 0
      default).slots.length = 4 :=
  ⟨by decide, (bone_influences_capped.1 w4slots 5 2).1 (by decide), by decide,
   (bone_influences_capped.2 wEnv wImgTrue wModel wGL wMesh4 (by decide) _
     (by decide)).1⟩

/-- C10: nonzero weights always form a contiguous prefix of the influence
slots (`zeroTail`), a weight-0 record leaves the weight column unchanged
(its slot stays empty), the next record for the vertex overwrites it, and
the prefix shape holds for every vertex `processMesh` produces. -/
theorem nonzero_weights_contiguous :
    (∀ slots : List (ℤ × ℚ), ∀ b : ℤ, ∀ w : ℚ, zeroTail slots = true →
        zeroTail (addBoneData slots b w) = true) ∧
    (∀ slots : List (ℤ × ℚ), ∀ b : ℤ,
        (addBoneData slots b 0).map Prod.snd = slots.map Prod.snd) ∧
    (∀ slots : List (ℤ × ℚ), ∀ b b2 : ℤ, ∀ w2 : ℚ,
        addBoneData (addBoneData slots b 0) b2 w2 = addBoneData slots b2 w2) ∧
    (∀ env : CtorDefaults, ∀ img : String → Bool, ∀ s : ModelState,
      ∀ gl : GLState, ∀ mesh : MeshIn,
      ∀ v ∈ (processMesh env img s gl mesh).2.2.vertices,
        zeroTail v.slots = true) := by
  refine ⟨zeroTail_addBoneData, addBoneData_zero_weights,
    addBoneData_zero_cancel, ?_⟩
  intro env img s gl mesh v hv
  refine processMesh_slots_pres (fun sl => zeroTail sl = true)
    zeroTail_addBoneData ?_ img s gl mesh v hv
  exact zeroTail_of_all_zero _ (list_all_zero_map_pair env.boneIDs)

/-- Witness for C10 at a concrete slot list. -/
theorem nonzero_weights_contiguous_witness :
    zeroTail w4slots = true ∧ zeroTail (addBoneData w4slots 5 2) = true :=
  ⟨by decide, nonzero_weights_contiguous.1 w4slots 5 2 (by decide)⟩

/-- The state of one vertex's influence slots at any point of the bone
loop: a written prefix of some length `k` whose slots all carry nonzero
weights except possibly the last one written (position `k - 1`), followed
by the still-untouched suffix of default-constructed slots
`(default ivec4 lane, weight 0)`.  `addBoneData` preserves this shape. -/
theorem addBoneData_shape (ids : List ℤ) (slots : List (ℤ × ℚ)) (b : ℤ)
    (w : ℚ) (hlen : slots.length = ids.length) (k : ℕ)
    (hk : k ≤ slots.length)
    (hsuf : ∀ j, k ≤ j → slots.get? j =
      (ids.map (fun z => ((z, (0 : ℚ)) : ℤ × ℚ))).get? j)
    (hpre : ∀ j, j + 1 < k → (slots.getD j (0, 0)).2 ≠ 0) :
    ∃ k2, k2 ≤ (addBoneData slots b w).length ∧
      (∀ j, k2 ≤ j → (addBoneData slots b w).get? j =
        (ids.map (fun z => ((z, (0 : ℚ)) : ℤ × ℚ))).get? j) ∧
      (∀ j, j + 1 < k2 → ((addBoneData slots b w).getD j (0, 0)).2 ≠ 0) := by
  induction slots generalizing ids k with
  | nil =>
    have hids : ids = [] := List.length_eq_zero.mp hlen.symm
    subst hids
    exact ⟨0, by simp [addBoneData], fun j _ => by simp [addBoneData], by omega⟩
  | cons s0 srest ih =>
    obtain ⟨i0, w0⟩ := s0
    cases ids with
    | nil => simp at hlen
    | cons z0 zrest =>
      by_cases h0 : w0 = 0
      · have hstep : addBoneData ((i0, w0) :: srest) b w = (b, w) :: srest := by
          simp [addBoneData, h0]
        have hk1 : k ≤ 1 := by
          by_contra hc
          exact hpre 0 (by omega) (by simpa using h0)
        refine ⟨1, by simp [hstep], ?_, by omega⟩
        intro j hj
        cases j with
        | zero => omega
        | succ m =>
          have := hsuf (m + 1) (by omega)
          rw [List.get?_cons_succ] at this
          rw [hstep, List.get?_cons_succ]
          exact this
      · have hstep : addBoneData ((i0, w0) :: srest) b w =
            (i0, w0) :: addBoneData srest b w := by
          simp [addBoneData, h0]
        have hk1 : 1 ≤ k := by
          by_contra hc
          have h00 := hsuf 0 (by omega)
          rw [List.map_cons, List.get?_cons_zero, List.get?_cons_zero] at h00
          injection h00 with h00
          exact h0 (congrArg Prod.snd h00)
        have hlen' : srest.length = zrest.length := by
          simpa using hlen
        obtain ⟨k2, hk2, hsuf2, hpre2⟩ := ih zrest hlen' (k - 1)
          (by simp at hk; omega)
          (fun j hj => by
            have := hsuf (j + 1) (by omega)
            rw [List.get?_cons_succ, List.map_cons, List.get?_cons_succ] at this
            exact this)
          (fun j hj => by
            have := hpre (j + 1) (by omega)
            rw [List.getD_cons_succ] at this
            exact this)
        refine ⟨k2 + 1, ?_, ?_, ?_⟩
        · rw [hstep]
          simp only [List.length_cons]
          omega
        · intro j hj
          cases j with
          | zero => omega
          | succ m =>
            rw [hstep, List.get?_cons_succ, List.map_cons, List.get?_cons_succ]
            exact hsuf2 m (by omega)
        · intro j hj
          cases j with
          | zero =>
            rw [hstep, List.getD_cons_zero]
            exact h0
          | succ m =>
            rw [hstep, List.getD_cons_succ]
            exact hpre2 m (by omega)

/-- C6 (amended): after construction every unused (weight-0) influence
slot still has weight 0, but its bone-index half is not guaranteed to be
0: each vertex's slots are a written prefix — nonzero weights except
possibly the single most recently written slot — followed by the untouched
suffix of default-constructed `(ivec4 lane, 0)` pairs, every unused slot
lies at or beyond that last written position, and a weight-0 skinning
record does write its bone index into the first weight-0 slot (leaving the
weight 0), so even a written unused slot need not hold index 0. -/
theorem unused_slots_weight_zero :
    (∀ env : CtorDefaults, ∀ mesh : MeshIn, ∀ vi : VertexIn,
      (buildVertex env mesh vi).slots =
        env.boneIDs.map (fun z => (z, (0 : ℚ)))) ∧
    (∀ env : CtorDefaults, ∀ img : String → Bool, ∀ s : ModelState,
      ∀ gl : GLState, ∀ mesh : MeshIn, ∀ j : ℕ, ∀ vi : VertexIn,
      mesh.vertices.get? j = some vi →
      (∀ b ∈ mesh.bones, ∀ w ∈ b.weights, w.1 ≠ j) →
      (processMesh env img s gl mesh).2.2.vertices.get? j =
        some (buildVertex env mesh vi)) ∧
    (∀ env : CtorDefaults, ∀ img : String → Bool, ∀ s : ModelState,
      ∀ gl : GLState, ∀ mesh : MeshIn,
      ∀ v ∈ (processMesh env img s gl mesh).2.2.vertices,
      v.slots.length = env.boneIDs.length ∧
      ∃ k, k ≤ v.slots.length ∧
        (∀ j, k ≤ j → v.slots.get? j =
          (env.boneIDs.map (fun z => ((z, (0 : ℚ)) : ℤ × ℚ))).get? j) ∧
        (∀ j, j + 1 < k → (v.slots.getD j (0, 0)).2 ≠ 0) ∧
        (∀ j, (v.slots.getD j (0, 0)).2 = 0 → k ≤ j + 1)) ∧
    (∀ slots : List (ℤ × ℚ), ∀ b : ℤ,
      slots.any (fun p => decide (p.2 = 0)) = true →
      addBoneData slots b 0 =
        slots.set (slots.findIdx (fun p => decide (p.2 = 0))) (b, 0)) := by
  refine ⟨?_, ?_, ?_, fun slots b h => addBoneData_first_zero slots b 0 h⟩
  · intro env mesh vi
    rfl
  · intro env img s gl mesh j vi hget huntouched
    rw [List.get?_eq_getElem?] at hget
    rw [processMesh_vertices, processBones_get?_untouched _ _ _ _ huntouched,
      List.get?_eq_getElem?, List.getElem?_map, hget]
    rfl
  · intro env img s gl mesh v hv
    have hres := processMesh_slots_pres
      (fun sl => sl.length = env.boneIDs.length ∧
        ∃ k, k ≤ sl.length ∧
          (∀ j, k ≤ j → sl.get? j =
            (env.boneIDs.map (fun z => ((z, (0 : ℚ)) : ℤ × ℚ))).get? j) ∧
          (∀ j, j + 1 < k → (sl.getD j (0, 0)).2 ≠ 0))
      (fun sl b w hsl => by
        obtain ⟨hlen, k, hk, hsuf, hpre⟩ := hsl
        refine ⟨by rw [addBoneData_length]; exact hlen, ?_⟩
        exact addBoneData_shape env.boneIDs sl b w hlen k hk hsuf hpre)
      (by
        refine ⟨by rw [List.length_map], 0, Nat.zero_le _, fun j _ => rfl,
          by omega⟩)
      img s gl mesh v hv
    obtain ⟨hlen, k, hk, hsuf, hpre⟩ := hres
    refine ⟨hlen, k, hk, hsuf, hpre, ?_⟩
    intro j hj
    by_contra hc
    exact hpre j (by omega) hj

/-- Counterexample for C6: with default-constructed `glm::ivec4` lanes
observed as 7, the single vertex of a boneless mesh ends construction with
its unused slot 0 holding (7, 0) rather than the claimed (0, 0). -/
theorem unused_slot_keeps_default_id :
    ((processMesh wEnv7 wImgTrue wModel wGL wMeshNoBones).2.2.vertices.getD 0
      default).slots.getD 0 (0, 0) = ((7 : ℤ), (0 : ℚ)) ∧
    ((7 : ℤ), (0 : ℚ)) ≠ ((0 : ℤ), (0 : ℚ)) :=
  ⟨by decide, by decide⟩

theorem lookupName_eq_none_iff (l : List (String × ℕ)) (n : String) :
    lookupName l n = none ↔ n ∉ l.map Prod.fst := by
  induction l with
  | nil => simp [lookupName]
  | cons hd tl ih =>
    obtain ⟨k, v⟩ := hd
    by_cases h : k = n
    · subst h
      simp [lookupName]
    · have hunfold : lookupName ((k, v) :: tl) n = lookupName tl n := by
        simp [lookupName, h]
      rw [hunfold, List.map_cons, List.mem_cons, ih]
      constructor
      · intro hnot hmem
        rcases hmem with h1 | h2
        · exact h h1.symm
        · exact hnot h2
      · intro hnot hmem
        exact hnot (Or.inr hmem)

theorem lookupName_append_of_none (l : List (String × ℕ)) (n : String) (c : ℕ)
    (h : lookupName l n = none) : lookupName (l ++ [(n, c)]) n = some c := by
  induction l with
  | nil => simp [lookupName]
  | cons hd tl ih =>
    obtain ⟨k, v⟩ := hd
    by_cases hk : k = n
    · simp [lookupName, hk] at h
    · simp only [lookupName, hk, if_false] at h ⊢
      exact ih h

theorem lookupName_append_of_some (l l2 : List (String × ℕ)) (n : String)
    (i : ℕ) (h : lookupName l n = some i) : lookupName (l ++ l2) n = some i := by
  induction l with
  | nil => simp [lookupName] at h
  | cons hd tl ih =>
    obtain ⟨k, v⟩ := hd
    by_cases hk : k = n
    · simp_all [lookupName]
    · simp only [lookupName, hk, if_false] at h ⊢
      exact ih h

theorem bindBone_of_some (s : ModelState) (name : String) (offset : Mat4)
    (i : ℕ) (h : lookupName s.boneMapping name = some i) :
    bindBone s name offset = (s, i) := by
  unfold bindBone
  rw [h]

theorem bindBone_of_none (s : ModelState) (name : String) (offset : Mat4)
    (h : lookupName s.boneMapping name = none) :
    (bindBone s name offset).2 = s.bonesCount ∧
    (bindBone s name offset).1.bonesCount = s.bonesCount + 1 ∧
    (bindBone s name offset).1.boneMapping =
      s.boneMapping ++ [(name, s.bonesCount)] := by
  unfold bindBone
  rw [h]
  exact ⟨rfl, rfl, rfl⟩

theorem bindAll_cons (s : ModelState) (hd : String × Mat4)
    (tl : List (String × Mat4)) :
    bindAll s (hd :: tl) = bindAll (bindBone s hd.1 hd.2).1 tl := rfl

theorem bindAll_lookup_mono (s : ModelState) (pairs : List (String × Mat4))
    (n : String) (i : ℕ) (h : lookupName s.boneMapping n = some i) :
    lookupName (bindAll s pairs).boneMapping n = some i := by
  induction pairs generalizing s with
  | nil => exact h
  | cons hd tl ih =>
    rw [bindAll_cons]
    refine ih _ ?_
    cases hl : lookupName s.boneMapping hd.1 with
    | some j => rw [bindBone_of_some s hd.1 hd.2 j hl]; exact h
    | none =>
      rw [(bindBone_of_none s hd.1 hd.2 hl).2.2]
      exact lookupName_append_of_some _ _ _ _ h

theorem bindAll_count (s : ModelState) (pairs : List (String × Mat4))
    (hInv : s.bonesCount = (s.boneMapping.map Prod.fst).toFinset.card) :
    (bindAll s pairs).bonesCount =
      ((s.boneMapping.map Prod.fst).toFinset ∪
        (pairs.map Prod.fst).toFinset).card := by
  induction pairs generalizing s with
  | nil => simpa using hInv
  | cons hd tl ih =>
    rw [bindAll_cons]
    cases hl : lookupName s.boneMapping hd.1 with
    | some j =>
      have hmem : hd.1 ∈ (s.boneMapping.map Prod.fst).toFinset := by
        rw [List.mem_toFinset]
        by_contra hc
        rw [(lookupName_eq_none_iff s.boneMapping hd.1).mpr hc] at hl
        exact Option.noConfusion hl
      rw [bindBone_of_some s hd.1 hd.2 j hl, ih s hInv]
      congr 1
      rw [List.map_cons, List.toFinset_cons, Finset.union_insert,
        Finset.insert_eq_self.mpr (Finset.mem_union_left _ hmem)]
    | none =>
      have hnot : hd.1 ∉ (s.boneMapping.map Prod.fst).toFinset := by
        rw [List.mem_toFinset]
        exact (lookupName_eq_none_iff s.boneMapping hd.1).mp hl
      obtain ⟨-, hcount, hmap⟩ := bindBone_of_none s hd.1 hd.2 hl
      have hSingle : (List.map Prod.fst [(hd.1, s.bonesCount)]).toFinset =
          ({hd.1} : Finset String) := by simp
      have hInv2 : (bindBone s hd.1 hd.2).1.bonesCount =
          (((bindBone s hd.1 hd.2).1.boneMapping).map Prod.fst).toFinset.card := by
        rw [hcount, hmap, List.map_append, List.toFinset_append, hSingle,
          Finset.union_comm]
        rw [show ({hd.1} : Finset String) ∪
            (List.map Prod.fst s.boneMapping).toFinset =
            insert hd.1 (List.map Prod.fst s.boneMapping).toFinset from by
          ext a
          simp [or_comm]]
        rw [Finset.card_insert_of_not_mem hnot, hInv]
      rw [ih _ hInv2, hmap]
      congr 1
      ext a
      simp only [List.map_append, List.map_cons, List.map_nil,
        List.toFinset_append, List.toFinset_cons, List.toFinset_nil,
        Finset.mem_union, Finset.mem_insert, Finset.not_mem_empty, or_false]
      tauto

theorem bindBone_idem (s : ModelState) (name : String) (offset o2 : Mat4) :
    bindBone (bindBone s name offset).1 name o2 = bindBone s name offset := by
  cases h : lookupName s.boneMapping name with
  | some i =>
    rw [bindBone_of_some s name offset i h, bindBone_of_some s name o2 i h]
  | none =>
    obtain ⟨hsnd, -, hmap⟩ := bindBone_of_none s name offset h
    have hlook : lookupName (bindBone s name offset).1.boneMapping name =
        some s.bonesCount := by
      rw [hmap]
      exact lookupName_append_of_none _ _ _ h
    rw [bindBone_of_some _ name o2 s.bonesCount hlook]
    exact Prod.ext rfl hsnd.symm

/-- C3: binding is idempotent (a rebind returns the state and the index of
the first binding unchanged), a fresh name receives the next sequential
index `bonesCount` (0 on a fresh model), an assigned index survives any
further bindings, and after any binding sequence the bone count equals the
number of distinct names seen. -/
theorem bind_sequential_distinct_count :
    (∀ s : ModelState, ∀ name : String, ∀ offset o2 : Mat4,
      bindBone (bindBone s name offset).1 name o2 = bindBone s name offset) ∧
    (∀ s : ModelState, ∀ name : String, ∀ offset : Mat4,
      lookupName s.boneMapping name = none →
      (bindBone s name offset).2 = s.bonesCount ∧
      (bindBone s name offset).1.bonesCount = s.bonesCount + 1) ∧
    (∀ s : ModelState, ∀ name : String, ∀ offset : Mat4, ∀ i : ℕ,
      lookupName s.boneMapping name = some i → bindBone s name offset = (s, i)) ∧
    (∀ s : ModelState, ∀ pairs : List (String × Mat4), ∀ n : String, ∀ i : ℕ,
      lookupName s.boneMapping n = some i →
      lookupName (bindAll s pairs).boneMapping n = some i) ∧
    (∀ s : ModelState, ∀ pairs : List (String × Mat4),
      s.boneMapping = [] → s.bonesCount = 0 →
      (bindAll s pairs).bonesCount = (pairs.map Prod.fst).toFinset.card) := by
  refine ⟨bindBone_idem, ?_, bindBone_of_some, bindAll_lookup_mono, ?_⟩
  · intro s name offset h
    obtain ⟨h1, h2, -⟩ := bindBone_of_none s name offset h
    exact ⟨h1, h2⟩
  · intro s pairs hmap hcount
    have h := bindAll_count s pairs (by rw [hmap, hcount]; rfl)
    rw [hmap] at h
    simpa using h

/-- Witness for C3: three binds with one repeated name on a fresh model
give 2 bones. -/
theorem bind_sequential_distinct_count_witness :
    lookupName wModel.boneMapping wBoneName = none ∧
    (bindBone wModel wBoneName 1).2 = wModel.bonesCount ∧
    (bindBone wModel wBoneName 1).1.bonesCount = wModel.bonesCount + 1 ∧
    wModel.boneMapping = [] ∧ wModel.bonesCount = 0 ∧
    (bindAll wModel wBindPairs).bonesCount =
      (wBindPairs.map Prod.fst).toFinset.card :=
  ⟨rfl, (bind_sequential_distinct_count.2.1 wModel wBoneName 1 rfl).1,
   (bind_sequential_distinct_count.2.1 wModel wBoneName 1 rfl).2, rfl, rfl,
   bind_sequential_distinct_count.2.2.2.2 wModel wBindPairs rfl rfl⟩

theorem readNodeHeirarchy_eq (ops : SlerpOps) (anim : Animation)
    (mapping : List (String × ℕ)) (gInv : Mat4) (t : ℚ) (nm : String)
    (tr : Mat4) (cs : List AiNode) (parent : Mat4) (bm : List BoneMatrix) :
    readNodeHeirarchy ops anim mapping gInv t (AiNode.node nm tr cs) parent bm =
      readNodeList ops anim mapping gInv t cs
        (parent * localTransform ops anim t (AiNode.node nm tr cs))
        (boneWrite mapping gInv
          (parent * localTransform ops anim t (AiNode.node nm tr cs)) nm bm) := by
  rw [readNodeHeirarchy]

theorem readNodeList_nil (ops : SlerpOps) (anim : Animation)
    (mapping : List (String × ℕ)) (gInv : Mat4) (t : ℚ) (parent : Mat4)
    (bm : List BoneMatrix) :
    readNodeList ops anim mapping gInv t [] parent bm = bm := by
  rw [readNodeList]

theorem readNodeList_cons (ops : SlerpOps) (anim : Animation)
    (mapping : List (String × ℕ)) (gInv : Mat4) (t : ℚ) (n : AiNode)
    (rest : List AiNode) (parent : Mat4) (bm : List BoneMatrix) :
    readNodeList ops anim mapping gInv t (n :: rest) parent bm =
      readNodeList ops anim mapping gInv t rest parent
        (readNodeHeirarchy ops anim mapping gInv t n parent bm) := by
  rw [readNodeList]

theorem modifyAt_get?_eq {α : Type} (l : List α) (i : ℕ) (f : α → α) :
    (modifyAt l i f).get? i = (l.get? i).map f := by
  unfold modifyAt
  cases hget : l.get? i with
  | none => exact hget
  | some a0 =>
    have hlt : i < l.length := by
      rw [List.get?_eq_getElem?] at hget
      exact (List.getElem?_eq_some.mp hget).1
    rw [List.get?_eq_getElem?, List.getElem?_set_eq_of_lt _ hlt]
    rfl

theorem boneWrite_length (mapping : List (String × ℕ)) (gInv g : Mat4)
    (nm : String) (bm : List BoneMatrix) :
    (boneWrite mapping gInv g nm bm).length = bm.length := by
  unfold boneWrite
  cases lookupName mapping nm with
  | none => rfl
  | some i => exact modifyAt_length bm i _

theorem boneWrite_get?_offset (mapping : List (String × ℕ)) (gInv g : Mat4)
    (nm : String) (bm : List BoneMatrix) (j : ℕ) :
    ((boneWrite mapping gInv g nm bm).get? j).map BoneMatrix.BoneOffset =
      (bm.get? j).map BoneMatrix.BoneOffset := by
  unfold boneWrite
  cases lookupName mapping nm with
  | none => rfl
  | some i =>
    by_cases hij : i = j
    · subst hij
      rw [modifyAt_get?_eq]
      cases bm.get? i <;> rfl
    · rw [modifyAt_get?_ne _ _ _ _ hij]

theorem boneWrite_get?_untouched (mapping : List (String × ℕ)) (gInv g : Mat4)
    (nm : String) (bm : List BoneMatrix) (i : ℕ)
    (h : lookupName mapping nm ≠ some i) :
    (boneWrite mapping gInv g nm bm).get? i = bm.get? i := by
  unfold boneWrite
  cases hl : lookupName mapping nm with
  | none => rfl
  | some k =>
    refine modifyAt_get?_ne bm k i _ ?_
    intro hk
    exact h (hk ▸ hl)

theorem boneWrite_get?_hit (mapping : List (String × ℕ)) (gInv g : Mat4)
    (nm : String) (bm : List BoneMatrix) (i : ℕ) (m : BoneMatrix)
    (hl : lookupName mapping nm = some i) (hm : bm.get? i = some m) :
    (boneWrite mapping gInv g nm bm).get? i =
      some ⟨m.BoneOffset, gInv * g * m.BoneOffset⟩ := by
  unfold boneWrite
  rw [hl, modifyAt_get?_eq, hm]
  rfl

mutual

theorem readNodeHeirarchy_length (ops : SlerpOps) (anim : Animation)
    (mapping : List (String × ℕ)) (gInv : Mat4) (t : ℚ) (node : AiNode)
    (parent : Mat4) (bm : List BoneMatrix) :
    (readNodeHeirarchy ops anim mapping gInv t node parent bm).length =
      bm.length := by
  cases node with
  | node nm tr cs =>
    rw [readNodeHeirarchy_eq,
      readNodeList_length ops anim mapping gInv t cs _ _,
      boneWrite_length]

theorem readNodeList_length (ops : SlerpOps) (anim : Animation)
    (mapping : List (String × ℕ)) (gInv : Mat4) (t : ℚ) (nodes : List AiNode)
    (parent : Mat4) (bm : List BoneMatrix) :
    (readNodeList ops anim mapping gInv t nodes parent bm).length =
      bm.length := by
  cases nodes with
  | nil => rw [readNodeList_nil]
  | cons n rest =>
    rw [readNodeList_cons, readNodeList_length ops anim mapping gInv t rest _ _,
      readNodeHeirarchy_length ops anim mapping gInv t n _ _]

end

mutual

theorem readNodeHeirarchy_get?_offset (ops : SlerpOps) (anim : Animation)
    (mapping : List (String × ℕ)) (gInv : Mat4) (t : ℚ) (node : AiNode)
    (parent : Mat4) (bm : List BoneMatrix) (j : ℕ) :
    ((readNodeHeirarchy ops anim mapping gInv t node parent bm).get? j).map
        BoneMatrix.BoneOffset = (bm.get? j).map BoneMatrix.BoneOffset := by
  cases node with
  | node nm tr cs =>
    rw [readNodeHeirarchy_eq,
      readNodeList_get?_offset ops anim mapping gInv t cs _ _ j,
      boneWrite_get?_offset]

theorem readNodeList_get?_offset (ops : SlerpOps) (anim : Animation)
    (mapping : List (String × ℕ)) (gInv : Mat4) (t : ℚ) (nodes : List AiNode)
    (parent : Mat4) (bm : List BoneMatrix) (j : ℕ) :
    ((readNodeList ops anim mapping gInv t nodes parent bm).get? j).map
        BoneMatrix.BoneOffset = (bm.get? j).map BoneMatrix.BoneOffset := by
  cases nodes with
  | nil => rw [readNodeList_nil]
  | cons n rest =>
    rw [readNodeList_cons,
      readNodeList_get?_offset ops anim mapping gInv t rest _ _ j,
      readNodeHeirarchy_get?_offset ops anim mapping gInv t n _ _ j]

end

mutual

theorem readNodeHeirarchy_get?_untouched (ops : SlerpOps) (anim : Animation)
    (mapping : List (String × ℕ)) (gInv : Mat4) (t : ℚ) (node : AiNode)
    (parent : Mat4) (bm : List BoneMatrix) (i : ℕ)
    (h : ∀ x ∈ treeNames node, lookupName mapping x ≠ some i) :
    (readNodeHeirarchy ops anim mapping gInv t node parent bm).get? i =
      bm.get? i := by
  cases node with
  | node nm tr cs =>
    have hforest : ∀ x ∈ forestNames cs, lookupName mapping x ≠ some i := by
      intro x hx
      refine h x ?_
      rw [treeNames]
      exact List.mem_cons_of_mem nm hx
    have hnm : lookupName mapping nm ≠ some i := by
      refine h nm ?_
      rw [treeNames]
      exact List.mem_cons_self nm _
    rw [readNodeHeirarchy_eq,
      readNodeList_get?_untouched ops anim mapping gInv t cs _ _ i hforest,
      boneWrite_get?_untouched _ _ _ _ _ _ hnm]

theorem readNodeList_get?_untouched (ops : SlerpOps) (anim : Animation)
    (mapping : List (String × ℕ)) (gInv : Mat4) (t : ℚ) (nodes : List AiNode)
    (parent : Mat4) (bm : List BoneMatrix) (i : ℕ)
    (h : ∀ x ∈ forestNames nodes, lookupName mapping x ≠ some i) :
    (readNodeList ops anim mapping gInv t nodes parent bm).get? i =
      bm.get? i := by
  cases nodes with
  | nil => rw [readNodeList_nil]
  | cons n rest =>
    have hn : ∀ x ∈ treeNames n, lookupName mapping x ≠ some i := by
      intro x hx
      refine h x ?_
      rw [forestNames]
      exact List.mem_append_left _ hx
    have hrest : ∀ x ∈ forestNames rest, lookupName mapping x ≠ some i := by
      intro x hx
      refine h x ?_
      rw [forestNames]
      exact List.mem_append_right _ hx
    rw [readNodeList_cons,
      readNodeList_get?_untouched ops anim mapping gInv t rest _ _ i hrest,
      readNodeHeirarchy_get?_untouched ops anim mapping gInv t n _ _ i hn]

end

theorem mem_forestNames_of_get? (nodes : List AiNode) (j : ℕ) (c : AiNode)
    (hc : nodes.get? j = some c) (x : String) (hx : x ∈ treeNames c) :
    x ∈ forestNames nodes := by
  induction nodes generalizing j with
  | nil => exact absurd hc (by simp)
  | cons c0 rest ih =>
    rw [forestNames]
    cases j with
    | zero =>
      injection hc with hc0
      subst hc0
      exact List.mem_append_left _ hx
    | succ k =>
      exact List.mem_append_right _ (ih k hc)

theorem nodeAt_name_mem (c : AiNode) (p : List ℕ) (n : AiNode)
    (h : nodeAt c p = some n) : n.name ∈ treeNames c := by
  induction p generalizing c with
  | nil =>
    rw [nodeAt] at h
    injection h with hc
    subst hc
    cases c with
    | node nm tr cs =>
      rw [treeNames]
      exact List.mem_cons_self _ _
  | cons j p' ih =>
    cases c with
    | node nm tr cs =>
      rw [nodeAt] at h
      simp only [AiNode.children] at h
      cases hc : cs.get? j with
      | none => rw [hc] at h; exact Option.noConfusion h
      | some ch =>
        rw [hc] at h
        rw [treeNames]
        exact List.mem_cons_of_mem nm (mem_forestNames_of_get? cs j ch hc _ (ih ch h))

theorem lookupName_some_mem (l : List (String × ℕ)) (n : String) (i : ℕ)
    (h : lookupName l n = some i) : (n, i) ∈ l := by
  induction l with
  | nil => exact Option.noConfusion h
  | cons hd tl ih =>
    obtain ⟨k, v⟩ := hd
    by_cases hk : k = n
    · subst hk
      rw [lookupName, if_pos rfl] at h
      injection h with hv
      subst hv
      exact List.mem_cons_self _ _
    · rw [lookupName, if_neg hk] at h
      exact List.mem_cons_of_mem _ (ih h)

theorem lookupName_inj (mapping : List (String × ℕ))
    (hinj : mapping.Pairwise (fun x y => x.2 ≠ y.2)) (a b : String) (i : ℕ)
    (ha : lookupName mapping a = some i) (hb : lookupName mapping b = some i) :
    a = b := by
  have hma := lookupName_some_mem mapping a i ha
  have hmb := lookupName_some_mem mapping b i hb
  by_contra hne
  have hpairne : ((a, i) : String × ℕ) ≠ (b, i) := by
    intro hc
    exact hne (congrArg Prod.fst hc)
  have := List.Pairwise.forall (fun x y hxy => (hxy ∘ Eq.symm : y.2 ≠ x.2))
    hinj hma hmb hpairne
  exact this rfl

mutual

theorem readNodeHeirarchy_final (ops : SlerpOps) (anim : Animation)
    (mapping : List (String × ℕ)) (gInv : Mat4) (t : ℚ) (node : AiNode)
    (parent : Mat4) (bm : List BoneMatrix) (p : List ℕ) (n : AiNode)
    (G : Mat4) (i : ℕ) (m : BoneMatrix)
    (hnode : nodeAt node p = some n)
    (hglobal : globalAt ops anim t node parent p = some G)
    (hnodup : (treeNames node).Nodup)
    (hinj : mapping.Pairwise (fun x y => x.2 ≠ y.2))
    (hlook : lookupName mapping n.name = some i)
    (hm : bm.get? i = some m) :
    (readNodeHeirarchy ops anim mapping gInv t node parent bm).get? i =
      some ⟨m.BoneOffset, gInv * G * m.BoneOffset⟩ := by
  cases node with
  | node nm tr cs =>
    rw [treeNames, List.nodup_cons] at hnodup
    cases p with
    | nil =>
      rw [nodeAt] at hnode
      injection hnode with hn
      rw [globalAt] at hglobal
      injection hglobal with hG
      have hnmlook : lookupName mapping nm = some i := by
        rw [← hn] at hlook
        exact hlook
      have huntouched : ∀ x ∈ forestNames cs, lookupName mapping x ≠ some i := by
        intro x hx heq
        have hxnm : x = nm := lookupName_inj mapping hinj x nm i heq hnmlook
        exact hnodup.1 (hxnm ▸ hx)
      rw [readNodeHeirarchy_eq,
        readNodeList_get?_untouched ops anim mapping gInv t cs _ _ i huntouched,
        boneWrite_get?_hit mapping gInv _ nm bm i m hnmlook hm, hG]
    | cons j p' =>
      rw [nodeAt] at hnode
      rw [globalAt] at hglobal
      simp only [AiNode.children] at hnode hglobal
      cases hc : cs.get? j with
      | none =>
        rw [hc] at hnode
        exact Option.noConfusion hnode
      | some c =>
        rw [hc] at hnode hglobal
        have hnm_ne : lookupName mapping nm ≠ some i := by
          intro heq
          have hxnm : nm = n.name :=
            lookupName_inj mapping hinj nm n.name i heq hlook
          have hmem : n.name ∈ treeNames c := nodeAt_name_mem c p' n hnode
          have hmem' : n.name ∈ forestNames cs :=
            mem_forestNames_of_get? cs j c hc _ hmem
          exact hnodup.1 (hxnm ▸ hmem')
        rw [readNodeHeirarchy_eq]
        refine readNodeList_final ops anim mapping gInv t cs _ _ j c p' n G i m
          hc hnode hglobal hnodup.2 hinj hlook ?_
        rw [boneWrite_get?_untouched _ _ _ _ _ _ hnm_ne]
        exact hm

theorem readNodeList_final (ops : SlerpOps) (anim : Animation)
    (mapping : List (String × ℕ)) (gInv : Mat4) (t : ℚ) (nodes : List AiNode)
    (parent : Mat4) (bm : List BoneMatrix) (j : ℕ) (c : AiNode) (p : List ℕ)
    (n : AiNode) (G : Mat4) (i : ℕ) (m : BoneMatrix)
    (hc : nodes.get? j = some c)
    (hnode : nodeAt c p = some n)
    (hglobal : globalAt ops anim t c parent p = some G)
    (hnodup : (forestNames nodes).Nodup)
    (hinj : mapping.Pairwise (fun x y => x.2 ≠ y.2))
    (hlook : lookupName mapping n.name = some i)
    (hm : bm.get? i = some m) :
    (readNodeList ops anim mapping gInv t nodes parent bm).get? i =
      some ⟨m.BoneOffset, gInv * G * m.BoneOffset⟩ := by
  cases nodes with
  | nil => exact absurd hc (by simp)
  | cons c0 rest =>
    rw [forestNames] at hnodup
    obtain ⟨hnodup0, hnoduprest, hdisj⟩ := List.nodup_append.mp hnodup
    cases j with
    | zero =>
      injection hc with hc0
      subst hc0
      have hmain := readNodeHeirarchy_final ops anim mapping gInv t c0 parent
        bm p n G i m hnode hglobal hnodup0 hinj hlook hm
      have hrest : ∀ x ∈ forestNames rest, lookupName mapping x ≠ some i := by
        intro x hx heq
        have hxn : x = n.name := lookupName_inj mapping hinj x n.name i heq hlook
        have hmem : n.name ∈ treeNames c0 := nodeAt_name_mem c0 p n hnode
        exact hdisj hmem (hxn ▸ hx)
      rw [readNodeList_cons,
        readNodeList_get?_untouched ops anim mapping gInv t rest _ _ i hrest,
        hmain]
    | succ k =>
      have hc0names : ∀ x ∈ treeNames c0, lookupName mapping x ≠ some i := by
        intro x hx heq
        have hxn : x = n.name := lookupName_inj mapping hinj x n.name i heq hlook
        have hmem : n.name ∈ treeNames c := nodeAt_name_mem c p n hnode
        have hmem' : n.name ∈ forestNames rest :=
          mem_forestNames_of_get? rest k c hc _ hmem
        exact hdisj (hxn ▸ hx) hmem'
      rw [readNodeList_cons]
      refine readNodeList_final ops anim mapping gInv t rest _ _ k c p n G i m
        hc hnode hglobal hnoduprest hinj hlook ?_
      rw [readNodeHeirarchy_get?_untouched ops anim mapping gInv t c0 _ _ i
        hc0names]
      exact hm

end

/-- C1: per visited node with a channel the local transform is
`translate * rotate * scale` in that order; the traversal starts at the
scene root with the identity parent transform and multiplies parent-first
(`globalTransform = parent * local`, accumulated along the path); and for
a node registered as bone `i` it stores
`globalInverseTransform * globalTransform * BoneOffset[i]` into
`FinalTransformation[i]`, where the inverse root transform was cached by
`InitFromScene`. -/
theorem evaluator_transform_composition :
    (∀ ops : SlerpOps, ∀ anim : Animation, ∀ t : ℚ, ∀ node : AiNode,
      ∀ ch : NodeAnim, findNodeAnim anim node.name = some ch →
      localTransform ops anim t node =
        translateM (calcInterpolatedPosition t ch.positionKeys) *
          quatToMat4 (calcInterpolatedRotation ops t ch.rotationKeys) *
          scaleM (calcInterpolatedScaling t ch.scalingKeys)) ∧
    (∀ ops : SlerpOps, ∀ s : ModelState, ∀ timeInSeconds : ℚ,
      (boneTransform ops s timeInSeconds).1.boneMatrices =
        readNodeHeirarchy ops (currentClip s) s.boneMapping
          s.globalInverseTransform
          (cfmod (timeInSeconds * effectiveTPS (currentClip s))
            (effectiveDuration (currentClip s)))
          s.scene.rootNode 1 s.boneMatrices) ∧
    (∀ s : ModelState, ∀ scene : Scene,
      (InitFromScene s scene).globalInverseTransform =
        matInverse scene.rootNode.transformation) ∧
    (∀ ops : SlerpOps, ∀ anim : Animation, ∀ mapping : List (String × ℕ),
      ∀ gInv : Mat4, ∀ t : ℚ, ∀ root : AiNode, ∀ parent : Mat4,
      ∀ bm : List BoneMatrix, ∀ p : List ℕ, ∀ n : AiNode, ∀ G : Mat4,
      ∀ i : ℕ, ∀ m : BoneMatrix,
      nodeAt root p = some n →
      globalAt ops anim t root parent p = some G →
      (treeNames root).Nodup →
      mapping.Pairwise (fun x y => x.2 ≠ y.2) →
      lookupName mapping n.name = some i →
      bm.get? i = some m →
      (readNodeHeirarchy ops anim mapping gInv t root parent bm).get? i =
        some ⟨m.BoneOffset, gInv * G * m.BoneOffset⟩) := by
  refine ⟨?_, ?_, ?_, ?_⟩
  · intro ops anim t node ch hch
    simp only [localTransform, hch]
  · intro ops s timeInSeconds
    rfl
  · intro s scene
    rfl
  · intro ops anim mapping gInv t root parent bm p n G i m h1 h2 h3 h4 h5 h6
    exact readNodeHeirarchy_final ops anim mapping gInv t root parent bm p n G
      i m h1 h2 h3 h4 h5 h6

/-- Witness for C1 on the one-node scene: the registered root bone receives
`gInv * (1 * localTransform) * BoneOffset`. -/
theorem evaluator_transform_composition_witness :
    nodeAt wNode [] = some wNode ∧
    globalAt trivOps default 0 wNode 1 [] =
      some (1 * localTransform trivOps default 0 wNode) ∧
    (treeNames wNode).Nodup ∧
    wMap.Pairwise (fun x y => x.2 ≠ y.2) ∧
    lookupName wMap wNode.name = some 0 ∧
    wBm.get? 0 = some ⟨1, 0⟩ ∧
    (readNodeHeirarchy trivOps default wMap 1 0 wNode 1 wBm).get? 0 =
      some ⟨(⟨1, 0⟩ : BoneMatrix).BoneOffset,
        1 * (1 * localTransform trivOps default 0 wNode) *
          (⟨1, 0⟩ : BoneMatrix).BoneOffset⟩ :=
  ⟨rfl, rfl, by decide, by decide, rfl, rfl,
   evaluator_transform_composition.2.2.2 trivOps default wMap 1 0 wNode 1 wBm
     [] wNode (1 * localTransform trivOps default 0 wNode) 0 ⟨1, 0⟩
     rfl rfl (by decide) (by decide) rfl rfl⟩

/-- C5 (amended): one evaluation call leaves every model field unchanged
except the `FinalTransformation` entries of the bone registry and the
cached `animDuration` member, which it overwrites with the active clip's
effective duration (line 263); in particular the offsets, the mapping, the
count, the meshes, the textures and the selected clip are untouched. -/
theorem evaluation_state_effect (ops : SlerpOps) (s : ModelState) (t : ℚ) :
    (boneTransform ops s t).1.scene = s.scene ∧
    (boneTransform ops s t).1.directory = s.directory ∧
    (boneTransform ops s t).1.meshes = s.meshes ∧
    (boneTransform ops s t).1.loadedTextures = s.loadedTextures ∧
    (boneTransform ops s t).1.globalInverseTransform =
      s.globalInverseTransform ∧
    (boneTransform ops s t).1.ticksPerSecond = s.ticksPerSecond ∧
    (boneTransform ops s t).1.currentAnimation = s.currentAnimation ∧
    (boneTransform ops s t).1.bonesCount = s.bonesCount ∧
    (boneTransform ops s t).1.boneMapping = s.boneMapping ∧
    (boneTransform ops s t).1.boneMatrices.length = s.boneMatrices.length ∧
    (∀ j : ℕ, ((boneTransform ops s t).1.boneMatrices.get? j).map
        BoneMatrix.BoneOffset =
      (s.boneMatrices.get? j).map BoneMatrix.BoneOffset) ∧
    (boneTransform ops s t).1.animDuration =
      effectiveDuration (currentClip s) := by
  refine ⟨rfl, rfl, rfl, rfl, rfl, rfl, rfl, rfl, rfl, ?_, ?_, rfl⟩
  · exact readNodeHeirarchy_length ops (currentClip s) s.boneMapping
      s.globalInverseTransform _ s.scene.rootNode 1 s.boneMatrices
  · intro j
    exact readNodeHeirarchy_get?_offset ops (currentClip s) s.boneMapping
      s.globalInverseTransform _ s.scene.rootNode 1 s.boneMatrices j

/-- Counterexample for C5: on a freshly constructed model
(`animDuration = 0`) a single evaluation writes the member `animDuration`
(line 263), so evaluation mutates model state beyond the
`finalTransformation` entries. -/
theorem evaluation_mutates_duration :
    (boneTransform trivOps wModelAnim 0).1.animDuration = 2 ∧
    wModelAnim.animDuration = 0 ∧
    (boneTransform trivOps wModelAnim 0).1.animDuration ≠
      wModelAnim.animDuration :=
  ⟨rfl, rfl, by decide⟩

theorem getD_last {α : Type} [Inhabited α] (l : List α) (h : l ≠ []) :
    l.getD (l.length - 1) default = l.getLast h := by
  have hlen : l.length - 1 < l.length :=
    Nat.sub_lt (List.length_pos.mpr h) Nat.one_pos
  rw [List.getD_eq_getElem?_getD, List.getElem?_eq_getElem hlen,
    List.getLast_eq_getElem]
  rfl

/-- C2: the effective duration used as the `fmod` modulus is the timestamp
of the LAST position key of channel 0 of the active clip — stored into
`animDuration` on every evaluation — and it does not depend on any channel
other than channel 0. -/
theorem duration_from_channel_zero :
    (∀ anim : Animation,
      ∀ hp : (anim.channels.getD 0 default).positionKeys ≠ [],
      effectiveDuration anim =
        ((anim.channels.getD 0 default).positionKeys.getLast hp).time) ∧
    (∀ ops : SlerpOps, ∀ s : ModelState, ∀ t : ℚ,
      (boneTransform ops s t).1.animDuration =
        effectiveDuration (currentClip s)) ∧
    (∀ c0 : NodeAnim, ∀ rest1 rest2 : List NodeAnim, ∀ r1 r2 : ℚ,
      effectiveDuration ⟨c0 :: rest1, r1⟩ =
        effectiveDuration ⟨c0 :: rest2, r2⟩) := by
  refine ⟨?_, fun ops s t => rfl, fun c0 rest1 rest2 r1 r2 => rfl⟩
  intro anim hp
  show ((anim.channels.getD 0 default).positionKeys.getD
      ((anim.channels.getD 0 default).positionKeys.length - 1) default).time =
    ((anim.channels.getD 0 default).positionKeys.getLast hp).time
  rw [getD_last _ hp]

/-- Witness for C2: with channel 1 running to tick 5, the evaluator's
duration is channel 0's final timestamp 2, not the maximum 5. -/
theorem duration_from_channel_zero_witness :
    (wClip2.channels.getD 0 default).positionKeys ≠ [] ∧
    effectiveDuration wClip2 =
      ((wClip2.channels.getD 0 default).positionKeys.getLast
        (by decide)).time ∧
    (boneTransform trivOps wModel2 0).1.animDuration =
      effectiveDuration (currentClip wModel2) ∧
    effectiveDuration ⟨[wChannel], 1⟩ =
      effectiveDuration ⟨[wChannel, wChanLong], 1⟩ ∧
    effectiveDuration wClip2 = 2 ∧ (2 : ℚ) ≠ 5 :=
  ⟨by decide, duration_from_channel_zero.1 wClip2 (by decide),
   duration_from_channel_zero.2.1 trivOps wModel2 0,
   duration_from_channel_zero.2.2 wChannel [] [wChanLong] 1 1,
   by decide, by decide⟩

theorem rtrunc_one : rtrunc 1 = 1 := by decide

theorem rtrunc_zero : rtrunc 0 = 0 := by decide

theorem cfmod_self (d : ℚ) (hd : d ≠ 0) : cfmod d d = 0 := by
  unfold cfmod
  rw [div_self hd, rtrunc_one]
  push_cast
  ring

theorem cfmod_zero_left (y : ℚ) : cfmod 0 y = 0 := by
  unfold cfmod
  rw [zero_div, rtrunc_zero]
  push_cast
  ring

/-- C7: a clip with `mTicksPerSecond == 0` is evaluated at 25 ticks per
second, and evaluating at `timeInSeconds = duration / 25` wraps the
animation time to 0: the whole evaluation coincides with the one at
`timeInSeconds = 0`. -/
theorem zero_tps_defaults_to_25 (ops : SlerpOps) (s : ModelState)
    (htps : (currentClip s).ticksPerSecond = 0)
    (hd : 0 < effectiveDuration (currentClip s)) :
    effectiveTPS (currentClip s) = 25 ∧
    cfmod (effectiveDuration (currentClip s) / 25 *
        effectiveTPS (currentClip s)) (effectiveDuration (currentClip s)) =
      cfmod (0 * effectiveTPS (currentClip s))
        (effectiveDuration (currentClip s)) ∧
    boneTransform ops s (effectiveDuration (currentClip s) / 25) =
      boneTransform ops s 0 := by
  have h25 : effectiveTPS (currentClip s) = 25 := by
    unfold effectiveTPS
    rw [htps]
    simp
  have harg : effectiveDuration (currentClip s) / 25 *
      effectiveTPS (currentClip s) = effectiveDuration (currentClip s) := by
    rw [h25]
    field_simp
  have hwrap : cfmod (effectiveDuration (currentClip s) / 25 *
      effectiveTPS (currentClip s)) (effectiveDuration (currentClip s)) =
      cfmod (0 * effectiveTPS (currentClip s))
        (effectiveDuration (currentClip s)) := by
    rw [harg, cfmod_self _ (ne_of_gt hd), zero_mul, cfmod_zero_left]
  refine ⟨h25, hwrap, ?_⟩
  show boneTransformAux ops s
      (cfmod (effectiveDuration (currentClip s) / 25 *
        effectiveTPS (currentClip s)) (effectiveDuration (currentClip s))) =
    boneTransformAux ops s
      (cfmod (0 * effectiveTPS (currentClip s))
        (effectiveDuration (currentClip s)))
  exact congrArg (boneTransformAux ops s) hwrap

/-- Witness for C7 on the rate-0, duration-2 clip. -/
theorem zero_tps_defaults_to_25_witness :
    (currentClip wModelAnim).ticksPerSecond = 0 ∧
    0 < effectiveDuration (currentClip wModelAnim) ∧
    effectiveTPS (currentClip wModelAnim) = 25 ∧
    boneTransform trivOps wModelAnim
        (effectiveDuration (currentClip wModelAnim) / 25) =
      boneTransform trivOps wModelAnim 0 :=
  ⟨rfl, by decide,
   (zero_tps_defaults_to_25 trivOps wModelAnim rfl (by decide)).1,
   (zero_tps_defaults_to_25 trivOps wModelAnim rfl (by decide)).2.2⟩

theorem loadTexStep_length (img : String → Bool) (directory typeName : String)
    (acc : List Texture × List Texture × GLState) (p : String) :
    (loadTexStep img directory typeName acc p).1.length = acc.1.length + 1 := by
  unfold loadTexStep
  cases acc.2.1.find? (fun t => decide (t.Path = p)) with
  | some t => exact List.length_append _ _
  | none => exact List.length_append _ _

theorem loadTexFold_length (img : String → Bool) (directory typeName : String)
    (paths : List String) (acc : List Texture × List Texture × GLState) :
    (paths.foldl (loadTexStep img directory typeName) acc).1.length =
      acc.1.length + paths.length := by
  induction paths generalizing acc with
  | nil => rfl
  | cons p rest ih =>
    rw [List.foldl_cons, ih, loadTexStep_length]
    rw [List.length_cons]
    omega

/-- C9 (amended): a failed image load is logged and does not abort, but the
freshly generated texture name (nonzero under a live GL context) is
returned on the failure path as well, and `loadMaterialTextures` appends
one texture record per material path unconditionally — the slot is NOT
omitted; mesh construction always completes. -/
theorem texture_failure_nonfatal :
    (∀ img : String → Bool, ∀ fn dir : String, ∀ gl : GLState,
      (TextureFromFile img fn dir gl).2 = gl.nextTexId ∧
      (TextureFromFile img fn dir gl).1.nextTexId = gl.nextTexId + 1 ∧
      (img (dir ++ "/" ++ fn) = false →
        (TextureFromFile img fn dir gl).1.log =
          gl.log ++ [textureFailMsg (dir ++ "/" ++ fn)])) ∧
    (∀ img : String → Bool, ∀ dir : String, ∀ loaded : List Texture,
      ∀ gl : GLState, ∀ paths : List String, ∀ ty : String,
      (loadMaterialTextures img dir loaded gl paths ty).1.length =
        paths.length) := by
  constructor
  · intro img fn dir gl
    by_cases h : img (dir ++ "/" ++ fn) = true
    · refine ⟨?_, ?_, ?_⟩
      · unfold TextureFromFile
        rw [if_pos h]
      · unfold TextureFromFile
        rw [if_pos h]
      · intro hfalse
        rw [h] at hfalse
        exact Bool.noConfusion hfalse
    · have hf : img (dir ++ "/" ++ fn) = false := Bool.not_eq_true _ ▸
        Bool.eq_false_iff.mpr h
      refine ⟨?_, ?_, fun _ => ?_⟩
      · unfold TextureFromFile
        rw [if_neg (by rw [hf]; exact Bool.false_ne_true)]
      · unfold TextureFromFile
        rw [if_neg (by rw [hf]; exact Bool.false_ne_true)]
      · unfold TextureFromFile
        rw [if_neg (by rw [hf]; exact Bool.false_ne_true)]
  · intro img dir loaded gl paths ty
    unfold loadMaterialTextures
    rw [loadTexFold_length]
    simp

/-- Counterexample for C9: with every image unreadable, the returned
texture handle is the generated name 1 (not 0) and the texture list of the
material call still holds one record (the slot is not omitted). -/
theorem texture_failure_returns_handle :
    (TextureFromFile wImgFalse wMissing wDir wGL).2 ≠ 0 ∧
    (loadMaterialTextures wImgFalse wDir [] wGL [wMissing]
      diffuseName).1.length ≠ 0 :=
  ⟨by decide, by decide⟩

/-- Witness for C9 on the failing loader. -/
theorem texture_failure_nonfatal_witness :
    wImgFalse (wDir ++ "/" ++ wMissing) = false ∧
    (TextureFromFile wImgFalse wMissing wDir wGL).2 = wGL.nextTexId ∧
    (TextureFromFile wImgFalse wMissing wDir wGL).1.log =
      wGL.log ++ [textureFailMsg (wDir ++ "/" ++ wMissing)] ∧
    (loadMaterialTextures wImgFalse wDir [] wGL [wMissing]
      diffuseName).1.length = 1 :=
  ⟨rfl, (texture_failure_nonfatal.1 wImgFalse wMissing wDir wGL).1,
   (texture_failure_nonfatal.1 wImgFalse wMissing wDir wGL).2.2 rfl,
   by
     rw [texture_failure_nonfatal.2 wImgFalse wDir [] wGL [wMissing]
       diffuseName]
     rfl⟩

/-- Witness for C6 (amended): the boneless vertex keeps its default slots,
the one-influence vertex of `wMesh4` satisfies the prefix/suffix shape,
and a weight-0 record writes its bone index into the first empty slot. -/
theorem unused_slots_weight_zero_witness :
    (buildVertex wEnv7 wMeshNoBones ⟨⟨0, 0, 0⟩, ⟨0, 0, 0⟩, (0, 0)⟩).slots =
      wEnv7.boneIDs.map (fun z => (z, (0 : ℚ))) ∧
    wMeshNoBones.vertices.get? 0 =
      some ⟨⟨0, 0, 0⟩, ⟨0, 0, 0⟩, (0, 0)⟩ ∧
    (processMesh wEnv7 wImgTrue wModel wGL wMeshNoBones).2.2.vertices.get? 0 =
      some (buildVertex wEnv7 wMeshNoBones ⟨⟨0, 0, 0⟩, ⟨0, 0, 0⟩, (0, 0)⟩) ∧
    ((processMesh wEnv7 wImgTrue wModel wGL wMesh4).2.2.vertices.getD 0
        default ∈ (processMesh wEnv7 wImgTrue wModel wGL wMesh4).2.2.vertices) ∧
    (((processMesh wEnv7 wImgTrue wModel wGL wMesh4).2.2.vertices.getD 0
        default).slots.length = wEnv7.boneIDs.length ∧
      ∃ k, k ≤ ((processMesh wEnv7 wImgTrue wModel wGL wMesh4).2.2.vertices.getD
          0 default).slots.length ∧
        (∀ j, k ≤ j →
          ((processMesh wEnv7 wImgTrue wModel wGL wMesh4).2.2.vertices.getD 0
            default).slots.get? j =
          (wEnv7.boneIDs.map (fun z => ((z, (0 : ℚ)) : ℤ × ℚ))).get? j) ∧
        (∀ j, j + 1 < k →
          (((processMesh wEnv7 wImgTrue wModel wGL wMesh4).2.2.vertices.getD 0
            default).slots.getD j (0, 0)).2 ≠ 0) ∧
        (∀ j, (((processMesh wEnv7 wImgTrue wModel wGL wMesh4).2.2.vertices.getD
            0 default).slots.getD j (0, 0)).2 = 0 → k ≤ j + 1)) ∧
    w0slots.any (fun p => decide (p.2 = 0)) = true ∧
    addBoneData w0slots 3 0 =
      w0slots.set (w0slots.findIdx (fun p => decide (p.2 = 0))) (3, 0) :=
  ⟨unused_slots_weight_zero.1 wEnv7 wMeshNoBones
     ⟨⟨0, 0, 0⟩, ⟨0, 0, 0⟩, (0, 0)⟩,
   rfl,
   unused_slots_weight_zero.2.1 wEnv7 wImgTrue wModel wGL wMeshNoBones 0
     ⟨⟨0, 0, 0⟩, ⟨0, 0, 0⟩, (0, 0)⟩ rfl (by decide),
   by decide,
   unused_slots_weight_zero.2.2.1 wEnv7 wImgTrue wModel wGL wMesh4 _
     (by decide),
   by decide,
   unused_slots_weight_zero.2.2.2 w0slots 3 (by decide)⟩
